import Mathlib

/-!
Shallow embedding of the Cedilha boolean-expression truth-table program.

The repository has two near-duplicate source files:
  - src/main.rs: tokenizer, a single-stack parser `parse`, variable
    collector, step-tracing evaluator, truth-table generator.
  - src/Proto.rs: the same tokenizer/collector/evaluator/generator plus a
    two-stack parser `parse_expr` (operand stack + operator stack, with a
    recursive call for parenthesised groups) and a clap-driven `main` with
    a silent flag `s` and an (unused) expand flag `e`.

Rust `Vec` stacks are embedded as Lean lists with the head as the top of
the stack.  `HashMap` accumulators are embedded as association lists with
an insert that replaces an existing key or appends a fresh one.  The
`unreachable!()` panics in `parse_expr` are embedded as an explicit
`panicked` outcome.  `parse_expr`'s recursion consumes tokens from a
shared queue, so it is embedded with a fuel parameter; each recursive
call runs on a strictly shorter token list, hence fuel `length + 1`
always suffices (all theorems below use it only at concrete inputs,
where it visibly suffices).

`total_rows = 1 << vars.len()` in `generate_truth_table` is computed at
type `i32` in the source: the shift wraps on the value bits, so 31
variables give a negative row count (an empty loop), and a shift amount
of 32 or more panics in a debug build (the build `cargo run` gives).
The embedding keeps the 32-bit behaviour: `toI32` reads a bit pattern
back as a two's-complement `i32`, the row loop runs `total_rows.toNat`
times (zero when negative), and the shift-overflow panic is an
`Except.error`.  The masks `i & (1 << j)` inside the loop body are kept
to their low 32 bits as well; in every reached iteration `j ≤ 29` and
`i < 2^30`, so no further wrapping or panic can occur there.
-/

inductive Token where
  | and : Token
  | or : Token
  | not : Token
  | lparen : Token
  | rparen : Token
  | var : String → Token
  deriving DecidableEq

/-- Word classification of the tokenizer: keywords `and`, `or`, `not`,
`(`, `)`; every other word becomes a variable named by the word itself. -/
def classify (word : String) : Token :=
  if word = "and" then Token.and
  else if word = "or" then Token.or
  else if word = "not" then Token.not
  else if word = "(" then Token.lparen
  else if word = ")" then Token.rparen
  else Token.var word

/-- Split a character list on whitespace runs, dropping empty words:
the embedding of Rust's `split_whitespace`. -/
def splitWords : List Char → List Char → List String
  | [], acc => if acc.isEmpty then [] else [String.mk acc.reverse]
  | c :: rest, acc =>
    if c.isWhitespace then
      (if acc.isEmpty then [] else [String.mk acc.reverse]) ++ splitWords rest []
    else
      splitWords rest (c :: acc)

/-- `tokenize` from both source files: split on whitespace, classify
each word. -/
def tokenize (input : String) : List Token :=
  (splitWords input.toList []).map classify

inductive AST where
  | and : AST → AST → AST
  | or : AST → AST → AST
  | not : AST → AST
  | var : String → AST
  deriving DecidableEq

/-- Outcome of `parse_expr` (src/Proto.rs): a normal return carries the
`Option AST` result (`stack.pop()`) and the tokens left in the queue;
`panicked` is the `unreachable!()` panic; `fuelOut` never occurs for the
fuel used below. -/
inductive PResult where
  | panicked : PResult
  | fuelOut : PResult
  | done : Option AST → List Token → PResult
  deriving DecidableEq

/-- The operator-drain loop of `parse_expr` (src/Proto.rs lines 68-81 and
87-100): pop every pending operator; combine the top two operands for
`And`/`Or`; with one operand, push it back; with none, do nothing.  A
popped `Not` with two operands available hits `unreachable!()`, embedded
as `Except.error ()`. -/
def drainOps : List Token → List AST → Except Unit (List AST)
  | [], stack => Except.ok stack
  | op :: ops, stack =>
    match stack with
    | right :: stack' =>
      match stack' with
      | left :: stack'' =>
        match op with
        | Token.and => drainOps ops (AST.and left right :: stack'')
        | Token.or => drainOps ops (AST.or left right :: stack'')
        | _ => Except.error ()
      | [] => drainOps ops [right]
    | [] => drainOps ops []

/-- The main loop of `parse_expr` (src/Proto.rs lines 53-103), fueled.
`Var` pushes a leaf; `Not` goes onto the operator stack; `LParen` runs a
nested parse and pushes its result when present; `RParen` breaks out;
`And`/`Or` drains all pending operators then becomes the sole pending
operator; end of input drains and returns `stack.pop()`. -/
def parseExprGo : Nat → List Token → List AST → List Token → PResult
  | 0, _, _, _ => PResult.fuelOut
  | Nat.succ fuel, toks, stack, ops =>
    match toks with
    | [] =>
      match drainOps ops stack with
      | Except.error _ => PResult.panicked
      | Except.ok st => PResult.done st.head? []
    | t :: rest =>
      match t with
      | Token.var v => parseExprGo fuel rest (AST.var v :: stack) ops
      | Token.not => parseExprGo fuel rest stack (Token.not :: ops)
      | Token.lparen =>
        match parseExprGo fuel rest [] [] with
        | PResult.panicked => PResult.panicked
        | PResult.fuelOut => PResult.fuelOut
        | PResult.done (some e) rest' => parseExprGo fuel rest' (e :: stack) ops
        | PResult.done none rest' => parseExprGo fuel rest' stack ops
      | Token.rparen =>
        match drainOps ops stack with
        | Except.error _ => PResult.panicked
        | Except.ok st => PResult.done st.head? rest
      | Token.and =>
        match drainOps ops stack with
        | Except.error _ => PResult.panicked
        | Except.ok st => parseExprGo fuel rest st [Token.and]
      | Token.or =>
        match drainOps ops stack with
        | Except.error _ => PResult.panicked
        | Except.ok st => parseExprGo fuel rest st [Token.or]

/-- `parse_expr` from src/Proto.rs. -/
def parse_expr (toks : List Token) : PResult :=
  parseExprGo (toks.length + 1) toks [] []

/-- The loop of `parse` (src/main.rs lines 39-65): `Var` pushes a leaf;
`Not` wraps the top of the stack when one exists, otherwise does nothing;
`And`/`Or` pops two operands (propagating `None` via `?` when fewer than
two are present); parentheses fall into the `_ => {}` arm and are
discarded. -/
def parseGo : List Token → List AST → Option (List AST)
  | [], stack => some stack
  | t :: rest, stack =>
    match t with
    | Token.var v => parseGo rest (AST.var v :: stack)
    | Token.not =>
      match stack with
      | e :: s => parseGo rest (AST.not e :: s)
      | [] => parseGo rest []
    | Token.and =>
      match stack with
      | right :: left :: s => parseGo rest (AST.and left right :: s)
      | _ => none
    | Token.or =>
      match stack with
      | right :: left :: s => parseGo rest (AST.or left right :: s)
      | _ => none
    | Token.lparen => parseGo rest stack
    | Token.rparen => parseGo rest stack

/-- `parse` from src/main.rs: run the loop from an empty stack and return
`stack.pop()`. -/
def parse (toks : List Token) : Option AST :=
  (parseGo toks []).bind List.head?

/-- The `Option AST` a caller of `parse_expr` observes (panics and fuel
exhaustion yield no AST). -/
def parseExprResult (toks : List Token) : Option AST :=
  match parse_expr toks with
  | PResult.done out _ => out
  | _ => none

/-- True exactly on parenthesis tokens. -/
def isParen : Token → Bool
  | Token.lparen => true
  | Token.rparen => true
  | _ => false

/-- `extract_variables` from both source files: walk the AST and collect
the distinct variable names.  Rust inserts into a `HashSet`; the
embedding keeps first-occurrence order in a duplicate-free list. -/
def insertVar (v : String) (vars : List String) : List String :=
  if v ∈ vars then vars else vars ++ [v]

def extract_variables : AST → List String → List String
  | AST.var v, vars => insertVar v vars
  | AST.and l r, vars => extract_variables r (extract_variables l vars)
  | AST.or l r, vars => extract_variables r (extract_variables l vars)
  | AST.not e, vars => extract_variables e vars

/-- The set of distinct variables referenced by an AST (the quantity `n`
the spec counts rows against). -/
def varFinset : AST → Finset String
  | AST.var v => {v}
  | AST.and l r => varFinset l ∪ varFinset r
  | AST.or l r => varFinset l ∪ varFinset r
  | AST.not e => varFinset e

/-- `*values.get(v).unwrap_or(&false)`: look a variable up in an
assignment, defaulting to `false` when absent. -/
def getValue (values : List (String × Bool)) (v : String) : Bool :=
  ((values.find? (fun p => p.1 == v)).map Prod.snd).getD false

/-- Rust's derived `Debug` rendering of an AST, used as the step-trace
key (`format!` at src/Proto.rs lines 123, 130, 136). -/
def reprAST : AST → String
  | AST.and l r => "And(" ++ reprAST l ++ ", " ++ reprAST r ++ ")"
  | AST.or l r => "Or(" ++ reprAST l ++ ", " ++ reprAST r ++ ")"
  | AST.not e => "Not(" ++ reprAST e ++ ")"
  | AST.var v => "Var(\"" ++ v ++ "\")"

/-- `HashMap::insert` on the step trace: replace the value at an existing
key, otherwise add the binding. -/
def insertStep (steps : List (String × Bool)) (k : String) (v : Bool) : List (String × Bool) :=
  if steps.any (fun p => p.1 == k) then
    steps.map (fun p => if p.1 == k then (k, v) else p)
  else
    steps ++ [(k, v)]

/-- Whether the step trace holds a binding for key `k`. -/
def hasKey (steps : List (String × Bool)) (k : String) : Bool :=
  steps.any (fun p => p.1 == k)

/-- `evaluate_steps` from both source files: evaluate the AST under an
assignment, threading the mutable `steps` map; every compound node
records its result under its textual rendering.  Both operands of a
binary node are evaluated before the node's result is formed. -/
def evaluate_steps : AST → List (String × Bool) → List (String × Bool) → Bool × List (String × Bool)
  | AST.var v, values, steps => (getValue values v, steps)
  | AST.and l r, values, steps =>
    let lres := evaluate_steps l values steps
    let rres := evaluate_steps r values lres.2
    let result := lres.1 && rres.1
    (result, insertStep rres.2 ("(" ++ reprAST l ++ " and " ++ reprAST r ++ ")") result)
  | AST.or l r, values, steps =>
    let lres := evaluate_steps l values steps
    let rres := evaluate_steps r values lres.2
    let result := lres.1 || rres.1
    (result, insertStep rres.2 ("(" ++ reprAST l ++ " or " ++ reprAST r ++ ")") result)
  | AST.not e, values, steps =>
    let eres := evaluate_steps e values steps
    let result := !eres.1
    (result, insertStep eres.2 ("not " ++ reprAST e) result)

/-- Modelled from the spec: the boolean semantics §4.4 prescribes —
`And(l,r)` is `eval(l) && eval(r)`, `Or(l,r)` is `eval(l) || eval(r)`,
`Not(x)` is `!eval(x)`, a variable is its assignment value or `false`
when absent.  Stated for comparing `evaluate_steps` against the spec. -/
def evalSpec : AST → List (String × Bool) → Bool
  | AST.var v, values => getValue values v
  | AST.and l r, values => evalSpec l values && evalSpec r values
  | AST.or l r, values => evalSpec l values || evalSpec r values
  | AST.not e, values => !(evalSpec e values)

/-- One printed line of the program, with each `println!` of
`generate_truth_table` and `main` (src/Proto.rs lines 148-166, 178)
embedded as a constructor carrying the data it renders. -/
inductive Line where
  | astDump : AST → Line
  | tableHeader : Line
  | varsHeader : List String → Line
  | row : List (String × Bool) → Bool → Line
  | stepsHeader : Line
  | step : String → Bool → Line
  | separator : Line
  deriving DecidableEq

/-- True exactly on truth-table row lines. -/
def isRow : Line → Bool
  | Line.row _ _ => true
  | _ => false

/-- True exactly on the per-row steps-header line. -/
def isStepsHeader : Line → Bool
  | Line.stepsHeader => true
  | _ => false

/-- The two's-complement `i32` value of the low 32 bits of a natural
number: what a wrapping Rust `i32` arithmetic result denotes. -/
def toI32 (x : Nat) : Int :=
  if x % 2 ^ 32 < 2 ^ 31 then ((x % 2 ^ 32 : Nat) : Int)
  else ((x % 2 ^ 32 : Nat) : Int) - 2 ^ 32

/-- The body of the row loop of `generate_truth_table` (src/Proto.rs
lines 151-167): build the assignment from the bits of `i`, evaluate, and
print the row line, the steps header, every recorded step, and the
separator — unconditionally.  `1 << j` is an `i32` shift, so only its
low 32 bits survive (in every reached iteration `j ≤ 29`, where this is
the identity and the `i32` mask agrees with the untruncated one). -/
def rowBlock (ast : AST) (vars : List String) (i : Nat) : List Line :=
  let values := vars.enum.map (fun jv => (jv.2, (i &&& ((1 <<< jv.1) % 2 ^ 32)) != 0))
  let res := evaluate_steps ast values []
  Line.row values res.1 :: Line.stepsHeader ::
    (res.2.map (fun p => Line.step p.1 p.2) ++ [Line.separator])

/-- `generate_truth_table` from src/Proto.rs: collect the variables,
compute `total_rows = 1 << vars.len()` at type `i32` — a shift amount of
32 or more panics (debug build), 31 wraps negative — then print the two
header lines and one block per integer in `0..total_rows` (none when
`total_rows` is not positive). -/
def generate_truth_table (ast : AST) : Except Unit (List Line) :=
  let vars := extract_variables ast []
  if 32 ≤ vars.length then Except.error ()
  else
    Except.ok (Line.tableHeader :: Line.varsHeader vars ::
      (List.range (toI32 (1 <<< vars.length)).toNat).flatMap (rowBlock ast vars))

/-- `main` from src/Proto.rs: take the expression (defaulting to
`a and (b or not c)`), tokenize, parse with `parse_expr`; on success
print the AST dump and, unless the silent flag `s` is set, the truth
table.  The expand flag `e` is accepted but never read by the source.
A parser panic aborts the program (`Except.error`). -/
def protoMain (expression : Option String) (s e : Bool) : Except Unit (List Line) :=
  match parse_expr (tokenize (expression.getD "a and (b or not c)")) with
  | PResult.panicked => Except.error ()
  | PResult.fuelOut => Except.error ()
  | PResult.done none _ => Except.ok []
  | PResult.done (some ast) _ =>
    if s then Except.ok [Line.astDump ast]
    else
      match generate_truth_table ast with
      | Except.error _ => Except.error ()
      | Except.ok lines => Except.ok (Line.astDump ast :: lines)

deriving instance DecidableEq for Except

/-- The lines a run printed (none on a panic). -/
def outLines : Except Unit (List Line) → List Line
  | Except.ok l => l
  | Except.error _ => []

/-- A disjunction of 31 distinct variables `v0 .. v30`: an AST whose
`i32` row count `1 << 31` wraps negative. -/
def ast31 : AST :=
  ((List.range 30).map (fun k => AST.var ("v" ++ toString (k + 1)))).foldl
    AST.or (AST.var "v0")

/-! ## Helper lemmas -/

theorem parseGo_filter_parens (toks : List Token) :
    ∀ stack : List AST,
      parseGo toks stack = parseGo (toks.filter (fun t => !(isParen t))) stack := by
  induction toks with
  | nil => intro stack; rfl
  | cons t rest ih =>
    intro stack
    cases t with
    | lparen => simpa [parseGo, isParen, List.filter_cons] using ih stack
    | rparen => simpa [parseGo, isParen, List.filter_cons] using ih stack
    | var v => simpa [parseGo, isParen, List.filter_cons] using ih (AST.var v :: stack)
    | not =>
      cases stack with
      | nil => simpa [parseGo, isParen, List.filter_cons] using ih []
      | cons e s => simpa [parseGo, isParen, List.filter_cons] using ih (AST.not e :: s)
    | and =>
      cases stack with
      | nil => simp [parseGo, isParen, List.filter_cons]
      | cons right s =>
        cases s with
        | nil => simp [parseGo, isParen, List.filter_cons]
        | cons left s' =>
          simpa [parseGo, isParen, List.filter_cons] using ih (AST.and left right :: s')
    | or =>
      cases stack with
      | nil => simp [parseGo, isParen, List.filter_cons]
      | cons right s =>
        cases s with
        | nil => simp [parseGo, isParen, List.filter_cons]
        | cons left s' =>
          simpa [parseGo, isParen, List.filter_cons] using ih (AST.or left right :: s')

theorem eval_fst (ast : AST) :
    ∀ values steps, (evaluate_steps ast values steps).1 = evalSpec ast values := by
  induction ast with
  | var v => intro values steps; rfl
  | and l r ihl ihr => intro values steps; simp [evaluate_steps, evalSpec, ihl, ihr]
  | or l r ihl ihr => intro values steps; simp [evaluate_steps, evalSpec, ihl, ihr]
  | not e ihe => intro values steps; simp [evaluate_steps, evalSpec, ihe]

theorem hasKey_insertStep (steps : List (String × Bool)) (k k' : String) (v : Bool)
    (h : hasKey steps k = true) : hasKey (insertStep steps k' v) k = true := by
  unfold hasKey at h ⊢
  unfold insertStep
  by_cases hmem : steps.any (fun p => p.1 == k') = true
  · simp only [hmem, if_pos]
    rcases List.any_eq_true.mp h with ⟨p, hp, hpk⟩
    refine List.any_eq_true.mpr ⟨if p.1 == k' then (k', v) else p, List.mem_map.mpr ⟨p, hp, rfl⟩, ?_⟩
    by_cases hpk' : p.1 == k'
    · simp only [hpk', if_pos]
      have h1 : p.1 = k' := by simpa using hpk'
      have h2 : p.1 = k := by simpa using hpk
      simp [← h1, h2]
    · simpa [hpk'] using hpk
  · simp only [hmem, if_neg, Bool.not_eq_true]
    rw [List.any_append]
    simp [h]

theorem getValue_extend (values : List (String × Bool)) (z : String)
    (h : values.find? (fun p => p.1 == z) = none) :
    ∀ v, getValue ((z, false) :: values) v = getValue values v := by
  intro v
  by_cases hzv : z = v
  · subst hzv
    simp [getValue, List.find?, h]
  · have hb : (z == v) = false := by simpa using hzv
    simp [getValue, List.find?, hb]

theorem evaluate_steps_extend (ast : AST) (values : List (String × Bool)) (z : String)
    (h : values.find? (fun p => p.1 == z) = none) :
    ∀ steps, evaluate_steps ast values steps = evaluate_steps ast ((z, false) :: values) steps := by
  induction ast with
  | var v => intro steps; simp [evaluate_steps, getValue_extend values z h]
  | and l r ihl ihr => intro steps; simp [evaluate_steps, ihl, ihr]
  | or l r ihl ihr => intro steps; simp [evaluate_steps, ihl, ihr]
  | not e ihe => intro steps; simp [evaluate_steps, ihe]

theorem length_filter_flatMap_one {α β : Type} (l : List α) (f : α → List β) (p : β → Bool)
    (h : ∀ a, ((f a).filter p).length = 1) :
    ((l.flatMap f).filter p).length = l.length := by
  induction l with
  | nil => rfl
  | cons a t ih =>
    simp [List.flatMap_cons, List.filter_append, ih, h]
    omega

theorem filter_map_step_isRow (l : List (String × Bool)) :
    (l.map (fun p => Line.step p.1 p.2)).filter isRow = [] := by
  induction l with
  | nil => rfl
  | cons a t ih => simp [List.filter_cons, isRow, ih]

theorem filter_map_step_isStepsHeader (l : List (String × Bool)) :
    (l.map (fun p => Line.step p.1 p.2)).filter isStepsHeader = [] := by
  induction l with
  | nil => rfl
  | cons a t ih => simp [List.filter_cons, isStepsHeader, ih]

theorem rowBlock_filter_isRow (ast : AST) (vars : List String) (i : Nat) :
    ((rowBlock ast vars i).filter isRow).length = 1 := by
  simp [rowBlock, List.filter_cons, List.filter_append, isRow, filter_map_step_isRow]

theorem rowBlock_filter_isStepsHeader (ast : AST) (vars : List String) (i : Nat) :
    ((rowBlock ast vars i).filter isStepsHeader).length = 1 := by
  simp [rowBlock, List.filter_cons, List.filter_append, isStepsHeader, filter_map_step_isStepsHeader]

theorem insertVar_toFinset (v : String) (vars : List String) :
    (insertVar v vars).toFinset = insert v vars.toFinset := by
  unfold insertVar
  by_cases hv : v ∈ vars
  · simp [hv, Finset.insert_eq_self.mpr (List.mem_toFinset.mpr hv)]
  · simp [hv, Finset.insert_eq, Finset.union_comm]

theorem insertVar_nodup (v : String) (vars : List String) (h : vars.Nodup) :
    (insertVar v vars).Nodup := by
  unfold insertVar
  by_cases hv : v ∈ vars
  · simpa [hv] using h
  · simp only [hv, if_neg, not_false_iff]
    exact h.append (List.nodup_singleton v) (by simpa [List.disjoint_singleton] using hv)

theorem extract_variables_toFinset (ast : AST) :
    ∀ vars : List String, (extract_variables ast vars).toFinset = vars.toFinset ∪ varFinset ast := by
  induction ast with
  | var v => intro vars; simp [extract_variables, varFinset, insertVar_toFinset, Finset.insert_eq, Finset.union_comm]
  | and l r ihl ihr =>
    intro vars
    simp [extract_variables, varFinset, ihr, ihl, Finset.union_assoc]
  | or l r ihl ihr =>
    intro vars
    simp [extract_variables, varFinset, ihr, ihl, Finset.union_assoc]
  | not e ihe => intro vars; simp [extract_variables, varFinset, ihe]

theorem extract_variables_nodup (ast : AST) :
    ∀ vars : List String, vars.Nodup → (extract_variables ast vars).Nodup := by
  induction ast with
  | var v => intro vars h; exact insertVar_nodup v vars h
  | and l r ihl ihr => intro vars h; exact ihr _ (ihl _ h)
  | or l r ihl ihr => intro vars h; exact ihr _ (ihl _ h)
  | not e ihe => intro vars h; exact ihe _ h

theorem extract_variables_length (ast : AST) :
    (extract_variables ast []).length = (varFinset ast).card := by
  have h1 : (extract_variables ast []).Nodup := extract_variables_nodup ast [] List.nodup_nil
  have h2 := extract_variables_toFinset ast []
  rw [← List.toFinset_card_of_nodup h1, h2]
  simp

theorem toI32_one_shl_small (n : Nat) (h : n ≤ 30) : (toI32 (1 <<< n)).toNat = 2 ^ n := by
  have h1 : 1 <<< n = 2 ^ n := by simp [Nat.shiftLeft_eq]
  have h2 : (2 : Nat) ^ n < 2147483648 :=
    lt_of_le_of_lt (Nat.pow_le_pow_right (by norm_num) h) (by norm_num)
  have h3 : (2 : Nat) ^ n % 4294967296 = 2 ^ n := Nat.mod_eq_of_lt (by omega)
  simp [toI32, h1, h3, h2]
  have h4 : ((2 : Int) ^ n) = ((2 ^ n : Nat) : Int) := by push_cast; ring
  rw [h4, Int.toNat_natCast]

theorem toI32_two_pow_31 : (toI32 2147483648).toNat = 0 := by decide

/-! ## Claim theorems -/

/-- C1: the claim says the Parser never crashes or errors, and that a
`Not` with nothing to apply to is absorbed silently.  The absorption
half matches the code (both parsers turn `not a` into the bare leaf
`Var "a"`), but `parse_expr` reaches its `unreachable!()` panic on the
token sequence of `a and not b`: draining the operator stack pops the
`Not` while two operands sit on the operand stack, and the reduction
match has no arm for `Not`. -/
theorem parser_crash_eval :
    parse_expr (tokenize "a and not b") = PResult.panicked
    ∧ parse (tokenize "not a") = some (AST.var "a")
    ∧ parse_expr (tokenize "not a") = PResult.done (some (AST.var "a")) [] := by
  decide

/-- C2 counterexample: the claim says every token sequence with
unbalanced parentheses produces no AST, but the unbalanced input
`( ( a` parses to the AST `Var "a"` under both parser variants. -/
theorem unbalanced_parse_ce :
    parse_expr (tokenize "( ( a") = PResult.done (some (AST.var "a")) []
    ∧ parse (tokenize "( ( a") = some (AST.var "a") := by
  decide

/-- C2 (amended): empty input produces no AST in either parser; but
unbalanced parentheses can still produce an AST (`( ( a` yields
`Var "a"` in both variants), and valid balanced sequences can fail
(`a and b` yields no AST from `parse`; `a and not b` makes `parse_expr`
panic). -/
theorem parse_failure_amended :
    parse_expr ([] : List Token) = PResult.done none []
    ∧ parse ([] : List Token) = none
    ∧ parse_expr (tokenize "( ( a") = PResult.done (some (AST.var "a")) []
    ∧ parse (tokenize "( ( a") = some (AST.var "a")
    ∧ parse (tokenize "a and b") = none
    ∧ parse_expr (tokenize "a and not b") = PResult.panicked := by
  decide

/-- C3: the claim says parsing `a and ( b or not c )` yields a
3-variable AST and an 8-row truth table, but no AST is produced at all:
`parse_expr` hits its `unreachable!()` panic while draining the inner
group's `Not`, and `parse` of src/main.rs returns `None` as soon as it
meets `and` with a single operand on the stack. -/
theorem scenario3_eval :
    parse_expr (tokenize "a and ( b or not c )") = PResult.panicked
    ∧ parse (tokenize "a and ( b or not c )") = none := by
  decide

/-- C4 counterexample: the claim says the truth table of `not a` gives
result `true` for the row `a = false`, but both parsers drop the leading
`not` (it is "applied to nothing" by the time an operand exists), so the
table is that of the bare variable: the row `a = false ↦ true` never
appears. -/
theorem not_a_table_ce :
    parse (tokenize "not a") = some (AST.var "a")
    ∧ Line.row [("a", false)] true ∉ outLines (generate_truth_table (AST.var "a")) := by
  decide

/-- C4 (amended): parsing `not a` yields the AST `Var "a"` in both
parser variants (the leading `not` is silently dropped); the table has
exactly 1 variable and 2 rows, with result `false` for `a = false` and
`true` for `a = true`. -/
theorem not_a_table_amended :
    parse (tokenize "not a") = some (AST.var "a")
    ∧ parse_expr (tokenize "not a") = PResult.done (some (AST.var "a")) []
    ∧ extract_variables (AST.var "a") [] = ["a"]
    ∧ generate_truth_table (AST.var "a") ≠ Except.error ()
    ∧ (outLines (generate_truth_table (AST.var "a"))).filter isRow =
        [Line.row [("a", false)] false, Line.row [("a", true)] true] := by
  decide

/-- C5: for every AST and assignment the evaluator computes `And` as
`&&`, `Or` as `||` and `Not` as `!` of its operands' values (first
conjunct: its result coincides with the spec semantics `evalSpec`,
whatever step trace has accumulated), and both operands of a binary node
are evaluated unconditionally: every step recorded while evaluating the
right operand — after the left one — is present in the binary node's
final trace, with no short-circuit even when the left operand already
decides the result (second conjunct). -/
theorem evaluator_semantics :
    (∀ ast values steps, (evaluate_steps ast values steps).1 = evalSpec ast values)
    ∧ (∀ l r values steps k,
        hasKey (evaluate_steps r values (evaluate_steps l values steps).2).2 k = true →
        hasKey (evaluate_steps (AST.and l r) values steps).2 k = true
          ∧ hasKey (evaluate_steps (AST.or l r) values steps).2 k = true) := by
  refine ⟨fun ast values steps => eval_fst ast values steps,
    fun l r values steps k h => ⟨?_, ?_⟩⟩
  · exact hasKey_insertStep _ _ _ _ h
  · exact hasKey_insertStep _ _ _ _ h

/-- C5 witness: with `a = false` the left operand of
`a and not x` is already decisive, yet the step recorded for the right
operand `not x` appears in the conjunction's trace. -/
theorem evaluator_semantics_witness :
    hasKey (evaluate_steps (AST.not (AST.var "x")) [("a", false)]
        (evaluate_steps (AST.var "a") [("a", false)] []).2).2 "not Var(\"x\")" = true
    ∧ hasKey (evaluate_steps (AST.and (AST.var "a") (AST.not (AST.var "x"))) [("a", false)] []).2
        "not Var(\"x\")" = true :=
  ⟨by decide,
    (evaluator_semantics.2 (AST.var "a") (AST.not (AST.var "x")) [("a", false)] []
      "not Var(\"x\")" (by decide)).1⟩

set_option maxRecDepth 16000 in
/-- C6 counterexample: the claim says every AST with `n` distinct
variables gets exactly `2 ^ n` rows, but on a disjunction of 31 distinct
variables the `i32` row count `1 << 31` wraps negative, the row loop is
empty, and zero rows are emitted (without panicking). -/
theorem truth_table_overflow_ce :
    (varFinset ast31).card = 31
    ∧ generate_truth_table ast31 ≠ Except.error ()
    ∧ (outLines (generate_truth_table ast31)).filter isRow = [] := by
  decide

/-- C6 (amended): with at most 30 distinct variables the generator emits
exactly `2 ^ n` row lines (`n = 0` is vacuous here: every AST leaf is a
variable, so `n ≥ 1`, and the formula covers it regardless); with
exactly 31, `total_rows = 1i32 << 31` wraps negative and zero rows are
emitted without a panic; with 32 or more, the `i32` shift overflows and
the program panics (debug build). -/
theorem truth_table_row_count :
    (∀ ast : AST, (varFinset ast).card ≤ 30 →
        ((outLines (generate_truth_table ast)).filter isRow).length =
          2 ^ (varFinset ast).card)
    ∧ (∀ ast : AST, (varFinset ast).card = 31 →
        generate_truth_table ast ≠ Except.error ()
          ∧ (outLines (generate_truth_table ast)).filter isRow = [])
    ∧ (∀ ast : AST, 32 ≤ (varFinset ast).card →
        generate_truth_table ast = Except.error ()) := by
  refine ⟨fun ast h => ?_, fun ast h => ?_, fun ast h => ?_⟩
  · have hlen := extract_variables_length ast
    have hguard : ¬ 32 ≤ (extract_variables ast []).length := by omega
    have hsmall : (extract_variables ast []).length ≤ 30 := by omega
    simp [generate_truth_table, hguard, outLines, List.filter_cons, isRow,
      length_filter_flatMap_one _ _ _ (rowBlock_filter_isRow ast (extract_variables ast [])),
      toI32_one_shl_small _ hsmall]
    rw [hlen]
  · have hlen := extract_variables_length ast
    have hlen31 : (extract_variables ast []).length = 31 := by omega
    constructor
    · simp [generate_truth_table, hlen31]
    · simp [generate_truth_table, hlen31, outLines, List.filter_cons, isRow,
        toI32_two_pow_31]
  · have hlen := extract_variables_length ast
    have hguard : 32 ≤ (extract_variables ast []).length := by omega
    simp [generate_truth_table, hguard]

/-- C6 witness: a single variable is within the safe range and its table
has `2 ^ 1` rows. -/
theorem truth_table_row_count_witness :
    (varFinset (AST.var "a")).card ≤ 30
    ∧ ((outLines (generate_truth_table (AST.var "a"))).filter isRow).length =
        2 ^ (varFinset (AST.var "a")).card :=
  ⟨by decide, truth_table_row_count.1 (AST.var "a") (by decide)⟩

/-- C7: evaluating an AST under an assignment that lacks the variable
`z` never fails and produces exactly the same result (value and step
trace) as evaluating under the assignment extended with `z ↦ false`. -/
theorem variable_default (ast : AST) (values steps : List (String × Bool)) (z : String)
    (h : values.find? (fun p => p.1 == z) = none) :
    evaluate_steps ast values steps = evaluate_steps ast ((z, false) :: values) steps :=
  evaluate_steps_extend ast values z h steps

/-- C7 witness: `not z` under the empty assignment evaluates exactly as
under `z ↦ false`. -/
theorem variable_default_witness :
    List.find? (fun p => p.1 == "z") ([] : List (String × Bool)) = none
    ∧ evaluate_steps (AST.not (AST.var "z")) [] [] =
        evaluate_steps (AST.not (AST.var "z")) [("z", false)] [] :=
  ⟨rfl, variable_default (AST.not (AST.var "z")) [] [] "z" rfl⟩

/-- C8 counterexample: the claim says that with the expand flag unset
only the final variables-to-result line prints for each row; but with
`e = false` the run on `a and b` still prints the steps header and a
step line beneath the rows — the source never reads the flag. -/
theorem expand_flag_ce :
    Line.stepsHeader ∈ outLines (protoMain (some "a and b") false false)
    ∧ Line.step "(Var(\"a\") and Var(\"b\"))" false ∈
        outLines (protoMain (some "a and b") false false) := by
  decide

/-- C8 (amended): the expand flag is parsed but never consulted — the
program's output is identical whether it is set or not, and intermediate
step results print beneath every truth-table row unconditionally (one
steps block per row).  The silent flag does suppress the truth table,
leaving only the parsed-AST dump. -/
theorem flags_behavior :
    (∀ expression s, protoMain expression s false = protoMain expression s true)
    ∧ (∀ expression e ast rest,
        parse_expr (tokenize (expression.getD "a and (b or not c)")) =
          PResult.done (some ast) rest →
        protoMain expression true e = Except.ok [Line.astDump ast])
    ∧ (∀ ast, ((outLines (generate_truth_table ast)).filter isStepsHeader).length =
        ((outLines (generate_truth_table ast)).filter isRow).length) := by
  refine ⟨fun expression s => rfl, fun expression e ast rest h => ?_, fun ast => ?_⟩
  · simp [protoMain, h]
  · by_cases h32 : 32 ≤ (extract_variables ast []).length
    · simp [generate_truth_table, h32, outLines]
    · simp [generate_truth_table, h32, outLines, List.filter_cons, isRow, isStepsHeader,
        length_filter_flatMap_one _ _ _ (rowBlock_filter_isRow ast (extract_variables ast [])),
        length_filter_flatMap_one _ _ _ (rowBlock_filter_isStepsHeader ast (extract_variables ast []))]

/-- C8 witness: `a and b` parses, and with the silent flag set the run
prints exactly the AST dump. -/
theorem flags_behavior_witness :
    parse_expr (tokenize "a and b") =
      PResult.done (some (AST.and (AST.var "a") (AST.var "b"))) []
    ∧ protoMain (some "a and b") true false =
        Except.ok [Line.astDump (AST.and (AST.var "a") (AST.var "b"))] :=
  ⟨by decide,
    flags_behavior.2.1 (some "a and b") false (AST.and (AST.var "a") (AST.var "b")) []
      (by decide)⟩

/-- C9: the two parser variants are not equivalent: on the token
sequence of `not a and b`, `parse_expr` of src/Proto.rs yields the AST
`And(Var "a", Var "b")` while `parse` of src/main.rs yields no AST. -/
theorem parser_variants_differ :
    parseExprResult (tokenize "not a and b") ≠ parse (tokenize "not a and b")
    ∧ parseExprResult (tokenize "not a and b") =
        some (AST.and (AST.var "a") (AST.var "b"))
    ∧ parse (tokenize "not a and b") = none := by
  decide

/-- C10: the parser of src/main.rs discards parenthesis tokens without
any effect: on every token sequence it returns the same result as on the
sequence with all parentheses removed, so grouping never influences the
AST this variant builds. -/
theorem parse_ignores_parens (toks : List Token) :
    parse toks = parse (toks.filter (fun t => !(isParen t))) := by
  unfold parse
  rw [parseGo_filter_parens toks []]
